import Mathlib

/-!
Verification of the redaction-and-export pipeline of `zbx_gh.py`.

The script polls a Zabbix server for hosts and items, redacts sensitive
metrics, and writes one JSON and one CSV snapshot per run plus a README
summary.  The definitions below are a shallow embedding of that pipeline:
pure fragments become Lean functions, the ambient reads (wall clock,
process environment) become an explicit `World` value, and Python dict
subscription becomes an `Except`-valued lookup.
-/

/-- Embedding of `REDACTED_FIELDS`: the fixed set of sensitive-field
substrings (the source stores them in a Python set; only membership is
ever used, so a list is a faithful model). -/
def REDACTED_FIELDS : List String :=
  ["system name", "system description", "host name",
   "ip address", "mac address", "serial number", "redacted"]

/-- Substring-occurrence test on character lists, mirroring the Python
string containment operator used by `should_redact`. -/
def subOccurs (needle : List Char) : List Char → Bool
  | [] => needle.isEmpty
  | c :: rest => needle.isPrefixOf (c :: rest) || subOccurs needle rest

/-- Embedding of the Python `str.lower()` call, character by character
(ASCII case mapping, the only case the sensitive substrings exercise). -/
def pyLower (s : String) : String :=
  String.mk (s.data.map Char.toLower)

/-- Embedding of `should_redact`: lower-case the metric name and test
whether any sensitive substring occurs in it. -/
def should_redact (metric_name : String) : Bool :=
  REDACTED_FIELDS.any (fun field => subOccurs field.data (pyLower metric_name).data)

/-- A raw Zabbix item as consumed by `main`, with every dict key present
(the shape `item.get` of the Zabbix API delivers for the requested
output columns). -/
structure Item where
  name : String
  lastvalue : String
  units : String
  lastclock : String
deriving DecidableEq, Repr

/-- A monitored host: the `hostid` used to fetch items, plus a display
name that `main` never reads (modelled as optional to cover a null or
missing display name). -/
structure Host where
  hostid : String
  hostDisplay : Option String
deriving DecidableEq, Repr

/-- One sanitized export record: the dict appended to `filtered_metrics`. -/
structure ExportRecord where
  host : String
  metric : String
  value : String
  units : String
  timestamp : String
deriving DecidableEq, Repr

/-- The per-item step of the loop in `main`: overwrite name and lastvalue
with "REDACTED" when the redaction policy fires, then build the record
with the constant host marker and the shared run timestamp. -/
def map_item (timestamp : String) (item : Item) : ExportRecord :=
  let item :=
    if should_redact item.name then
      { item with name := "REDACTED", lastvalue := "REDACTED" }
    else item
  { host := "[redacted]"
    metric := item.name
    value := item.lastvalue
    units := item.units
    timestamp := timestamp }

/-- The collection loop of `main`: for each host in order, fetch its items
and map each one, accumulating into one flat list. -/
def collect_metrics (timestamp : String) (hosts : List Host)
    (zabbix_get_items : String → List Item) : List ExportRecord :=
  (hosts.map (fun host => (zabbix_get_items host.hostid).map (map_item timestamp))).flatten

/-- A local wall-clock reading to the minute, the part of `datetime.now()`
the script formats. -/
structure LocalTime where
  year : Nat
  month : Nat
  day : Nat
  hour : Nat
  minute : Nat
deriving DecidableEq, Repr

/-- Two-digit zero padding, as `strftime` does for months, days, hours and
minutes. -/
def pad2 (n : Nat) : String :=
  if n < 10 then "0" ++ toString n else toString n

/-- Four-digit zero padding, as `strftime` does for the year field. -/
def pad4 (n : Nat) : String :=
  if n < 10 then "000" ++ toString n
  else if n < 100 then "00" ++ toString n
  else if n < 1000 then "0" ++ toString n
  else toString n

/-- Embedding of the `strftime` format string used for the run timestamp. -/
def runTimestamp (t : LocalTime) : String :=
  pad4 t.year ++ "-" ++ pad2 t.month ++ "-" ++ pad2 t.day ++ "_" ++
    pad2 t.hour ++ "-" ++ pad2 t.minute

/-- Embedding of the `strftime` format string used in the README. -/
def readmeTime (t : LocalTime) : String :=
  pad4 t.year ++ "-" ++ pad2 t.month ++ "-" ++ pad2 t.day ++ " " ++
    pad2 t.hour ++ ":" ++ pad2 t.minute ++ " UTC"

/-- The ambient process state the script can observe: the wall clock read
by `datetime.now()` and the process environment read by `os.getenv`. -/
structure World where
  now : LocalTime
  envVars : List (String × String)

/-- Embedding of `generate_readme`: the README template, reading the
clock from the ambient world. -/
def generate_readme (w : World) (metrics_count : Nat) : String :=
  "# Zabbix Metrics Archive\n\n⚠️ **Note**: Sensitive fields like hostnames and system descriptions are redacted.\n\n## Dataset Info\n- Last Updated: "
    ++ readmeTime w.now
    ++ "\n- Total Metrics Collected: "
    ++ toString metrics_count
    ++ "\n- Update Frequency: Every 3 hours\n\n## Data Structure\n```json\n\x7b\n    \"host\": \"redacted\",\n    \"metric\": \"CPU Usage\",\n    \"value\": \"12.5\",\n    \"units\": \"%\",\n    \"timestamp\": \"2024-05-21T12:00:00\"\n\x7d\n```\n"

/-- Modelled from the spec: the contract `generateSummary(recordCount,
generatedAt)`, the summary as a pure function of its two explicit inputs
(the repository itself only has the ambient-clock `generate_readme`). -/
def generateSummary (recordCount : Nat) (generatedAt : LocalTime) : String :=
  generate_readme { now := generatedAt, envVars := [] } recordCount

/-- A raw item as the JSON dict `main` iterates over: each key may be
absent. -/
structure RawItem where
  name : Option String
  lastvalue : Option String
  units : Option String
  lastclock : Option String
deriving DecidableEq, Repr

/-- Python dict subscription: `item[key]` raises `KeyError` when the key
is absent. -/
def dictGet (key : String) : Option String → Except String String
  | some v => Except.ok v
  | none => Except.error ("KeyError: " ++ key)

/-- The per-item step of `main` on a raw dict, in Python evaluation
order: `should_redact` reads the name, the redacting branch assigns name
and lastvalue, then the record literal reads name, lastvalue and units. -/
def map_item_raw (timestamp : String) (item : RawItem) : Except String ExportRecord :=
  match dictGet "name" item.name with
  | Except.error e => Except.error e
  | Except.ok name0 =>
    let item :=
      if should_redact name0 then
        { item with name := some "REDACTED", lastvalue := some "REDACTED" }
      else item
    match dictGet "name" item.name with
    | Except.error e => Except.error e
    | Except.ok name =>
      match dictGet "lastvalue" item.lastvalue with
      | Except.error e => Except.error e
      | Except.ok lastvalue =>
        match dictGet "units" item.units with
        | Except.error e => Except.error e
        | Except.ok units =>
          Except.ok { host := "[redacted]", metric := name, value := lastvalue,
                      units := units, timestamp := timestamp }

/-! ## Helper lemmas -/

/-- Characterization of `isPrefixOf` on character lists. -/
theorem isPrefixOf_eq_true_iff (n h : List Char) :
    n.isPrefixOf h = true ↔ ∃ t, h = n ++ t := by
  induction n generalizing h with
  | nil => simp
  | cons c cs ih =>
    cases h with
    | nil => simp [ List.isPrefixOf]
    | cons d ds =>
      simp only [ List.isPrefixOf, Bool.and_eq_true, beq_iff_eq, ih, List.cons_append,
        List.cons.injEq]
      constructor
      · rintro ⟨rfl, t, rfl⟩; exact ⟨t, rfl, rfl⟩
      · rintro ⟨t, rfl, rfl⟩; exact ⟨rfl, t, rfl⟩

/-- Characterization of `subOccurs`: occurrence anywhere in the string. -/
theorem subOccurs_eq_true_iff (n h : List Char) :
    subOccurs n h = true ↔ ∃ pre post, h = pre ++ n ++ post := by
  induction h with
  | nil =>
    simp only [subOccurs, List.isEmpty_iff]
    constructor
    · rintro rfl; exact ⟨[], [], rfl⟩
    · rintro ⟨pre, post, hp⟩
      have hlen := congrArg List.length hp
      simp only [List.length_nil, List.length_append] at hlen
      have : n.length = 0 := by omega
      exact List.eq_nil_of_length_eq_zero this
  | cons c rest ih =>
    simp only [subOccurs, Bool.or_eq_true, isPrefixOf_eq_true_iff, ih]
    constructor
    · rintro (⟨t, ht⟩ | ⟨pre, post, hp⟩)
      · exact ⟨[], t, by simp [ht]⟩
      · exact ⟨c :: pre, post, by simp [hp]⟩
    · rintro ⟨pre, post, hp⟩
      cases pre with
      | nil => exact Or.inl ⟨post, by simpa using hp⟩
      | cons p ps =>
        simp only [List.cons_append, List.cons.injEq] at hp
        exact Or.inr ⟨ps, post, hp.2⟩

/-- The lastclock field never influences the mapped record. -/
theorem map_item_lastclock_irrelevant (ts c : String) (it : Item) :
    map_item ts { it with lastclock := c } = map_item ts it := by
  unfold map_item
  cases h : should_redact it.name <;> simp [h]

/-! ## Claims -/

/-- C1: `should_redact` returns true exactly when the lower-cased metric
name contains at least one of the seven fixed sensitive substrings,
anywhere in the name, and false when it contains none of them. -/
theorem should_redact_iff_sensitive_substring :
    (∀ name : String, should_redact name = true ↔
      ∃ f ∈ REDACTED_FIELDS, ∃ pre post, (pyLower name).data = pre ++ f.data ++ post) ∧
    should_redact "IP Address Pool Usage" = true ∧
    should_redact "Host Name Extended" = true := by
  refine ⟨?_, by decide, by decide⟩
  intro name
  unfold should_redact
  rw [List.any_eq_true]
  constructor
  · rintro ⟨f, hf, hocc⟩
    exact ⟨f, hf, (subOccurs_eq_true_iff _ _).1 hocc⟩
  · rintro ⟨f, hf, hocc⟩
    exact ⟨f, hf, (subOccurs_eq_true_iff _ _).2 hocc⟩

/-- C2: a redacted item exports metric "REDACTED" and value "REDACTED"
with its units preserved unchanged; a non-redacted item exports its
original name and last value. -/
theorem map_item_redaction (ts : String) (item : Item) :
    (map_item ts item).units = item.units ∧
    (should_redact item.name = true →
      (map_item ts item).metric = "REDACTED" ∧ (map_item ts item).value = "REDACTED") ∧
    (should_redact item.name = false →
      (map_item ts item).metric = item.name ∧ (map_item ts item).value = item.lastvalue) := by
  unfold map_item
  cases h : should_redact item.name <;> simp [h]

/-- Witness for `map_item_redaction`: one redacted and one clean item. -/
theorem map_item_redaction_witness :
    (map_item "T" ⟨"Host Name", "srv1", "", "0"⟩).metric = "REDACTED" ∧
    (map_item "T" ⟨"CPU Usage", "12.5", "%", "0"⟩).metric = "CPU Usage" :=
  ⟨((map_item_redaction "T" ⟨"Host Name", "srv1", "", "0"⟩).2.1 (by decide)).1,
   ((map_item_redaction "T" ⟨"CPU Usage", "12.5", "%", "0"⟩).2.2 (by decide)).1⟩

/-- C3: every record produced by the collection loop has host
"[redacted]", whatever the source host display name (empty, null, or
itself sensitive), and that marker differs from "REDACTED". -/
theorem host_always_anonymized (ts : String) (hosts : List Host)
    (getItems : String → List Item) (r : ExportRecord)
    (hr : r ∈ collect_metrics ts hosts getItems) :
    r.host = "[redacted]" ∧ ("[redacted]" : String) ≠ "REDACTED" := by
  refine ⟨?_, by decide⟩
  simp only [collect_metrics, List.mem_flatten, List.mem_map] at hr
  obtain ⟨l, ⟨host, hh, rfl⟩, hrl⟩ := hr
  obtain ⟨item, hi, rfl⟩ := List.mem_map.1 hrl
  rfl

/-- Witness for `host_always_anonymized` at a concrete run. -/
theorem host_always_anonymized_witness :
    (⟨"[redacted]", "CPU Usage", "12.5", "%", "T"⟩ : ExportRecord).host = "[redacted]" ∧
      ("[redacted]" : String) ≠ "REDACTED" :=
  host_always_anonymized "T" [⟨"10084", none⟩]
    (fun _ => [⟨"CPU Usage", "12.5", "%", "0"⟩])
    ⟨"[redacted]", "CPU Usage", "12.5", "%", "T"⟩ (by decide)

/-- C5: every record of a run carries the shared run timestamp in the
format YYYY-MM-DD_HH-MM, and the output is unchanged under arbitrary
rewriting of every item lastclock, so per-item freshness never reaches a
record. -/
theorem records_share_run_timestamp (now : LocalTime) (hosts : List Host)
    (getItems : String → List Item) :
    (∀ r ∈ collect_metrics (runTimestamp now) hosts getItems,
        r.timestamp = runTimestamp now) ∧
    (∀ f : Item → String,
        collect_metrics (runTimestamp now) hosts
          (fun hid => (getItems hid).map (fun it => { it with lastclock := f it })) =
          collect_metrics (runTimestamp now) hosts getItems) := by
  constructor
  · intro r hr
    simp only [collect_metrics, List.mem_flatten, List.mem_map] at hr
    obtain ⟨l, ⟨host, hh, rfl⟩, hrl⟩ := hr
    obtain ⟨item, hi, rfl⟩ := List.mem_map.1 hrl
    rfl
  · intro f
    unfold collect_metrics
    apply congrArg List.flatten
    apply List.map_congr_left
    intro host _
    rw [List.map_map]
    apply List.map_congr_left
    intro it _
    exact map_item_lastclock_irrelevant _ _ it

/-- Witness for `records_share_run_timestamp` at a concrete run. -/
theorem records_share_run_timestamp_witness :
    (⟨"[redacted]", "CPU Usage", "12.5", "%",
        runTimestamp ⟨2024, 5, 21, 12, 0⟩⟩ : ExportRecord).timestamp =
      runTimestamp ⟨2024, 5, 21, 12, 0⟩ :=
  (records_share_run_timestamp ⟨2024, 5, 21, 12, 0⟩ [⟨"10084", none⟩]
      (fun _ => [⟨"CPU Usage", "12.5", "%", "0"⟩])).1
    ⟨"[redacted]", "CPU Usage", "12.5", "%", runTimestamp ⟨2024, 5, 21, 12, 0⟩⟩
    (by decide)

/-- C9: the summary depends only on the record count and the wall-clock
reading: two worlds agreeing on the clock yield the identical README, and
the ambient-clock function factors through the explicit-input contract
`generateSummary`. -/
theorem summary_pure_in_count_and_clock (w₁ w₂ : World) (n : Nat)
    (h : w₁.now = w₂.now) :
    generate_readme w₁ n = generate_readme w₂ n ∧
    generate_readme w₁ n = generateSummary n w₁.now := by
  constructor
  · simp [generate_readme, h]
  · rfl

/-- Witness for `summary_pure_in_count_and_clock`: two worlds differing
only in the environment. -/
theorem summary_pure_witness :
    generate_readme ⟨⟨2024, 5, 21, 12, 0⟩, [("ZABBIX_URL", "http://z")]⟩ 3 =
      generate_readme ⟨⟨2024, 5, 21, 12, 0⟩, []⟩ 3 :=
  (summary_pure_in_count_and_clock ⟨⟨2024, 5, 21, 12, 0⟩, [("ZABBIX_URL", "http://z")]⟩
      ⟨⟨2024, 5, 21, 12, 0⟩, []⟩ 3 rfl).1

/-- C7 counterexample: a raw item with name and lastvalue present but the
units key absent makes the mapper raise KeyError instead of defaulting
units to the empty string. -/
theorem map_item_raw_missing_units_fails :
    map_item_raw "2024-05-21_12-00" ⟨some "CPU Usage", some "12.5", none, some "0"⟩ =
      Except.error "KeyError: units" := by
  rfl

/-- C7 (amended): for every raw item whose name, lastvalue and units keys
are present, the mapper produces exactly one record, tolerating an absent
lastclock and preserving units (empty units stay the empty string); it
agrees with the total mapper `map_item`. -/
theorem map_item_raw_ok_of_fields_present (ts n v u : String) (c : Option String) :
    map_item_raw ts ⟨some n, some v, some u, c⟩ =
      Except.ok (map_item ts ⟨n, v, u, c.getD ""⟩) := by
  unfold map_item_raw map_item dictGet
  cases h : should_redact n <;> simp [h]

/-- C10: "REDACTED" is itself caught by the redaction policy, and feeding
the produced metric and value back through the redact-then-map step
returns the identical record: the step is idempotent. -/
theorem redact_map_idempotent :
    should_redact "REDACTED" = true ∧
    ∀ (ts : String) (item : Item),
      map_item ts { item with name := (map_item ts item).metric,
                              lastvalue := (map_item ts item).value } =
        map_item ts item := by
  refine ⟨by decide, ?_⟩
  intro ts item
  unfold map_item
  cases h : should_redact item.name <;>
    simp [h, show should_redact "REDACTED" = true from by decide]

/-! ## JSON serialization: embedding of `json.dump(filtered_metrics, f, indent=2)` -/

/-- Lowercase hex digit character, as the %04x format of the json encoder. -/
def hexDigitChar (n : Nat) : Char :=
  if n < 10 then Char.ofNat (48 + n) else Char.ofNat (87 + n)

/-- Four lowercase hex digits of a value below 0x10000. -/
def hex4 (n : Nat) : List Char :=
  [hexDigitChar (n / 4096 % 16), hexDigitChar (n / 256 % 16),
   hexDigitChar (n / 16 % 16), hexDigitChar (n % 16)]

/-- One \uXXXX escape sequence. -/
def uEscape (n : Nat) : List Char :=
  '\\' :: 'u' :: hex4 n

/-- Escaping of one character by the json encoder with its default
ensure_ascii=True: the fixed two-character escapes, literal printable
ASCII, and \uXXXX otherwise, with a surrogate pair beyond the BMP. -/
def jsonEscapeChar (c : Char) : List Char :=
  if c = '"' then ['\\', '"']
  else if c = '\\' then ['\\', '\\']
  else if c = '\x08' then ['\\', 'b']
  else if c = '\x0c' then ['\\', 'f']
  else if c = '\n' then ['\\', 'n']
  else if c = '\r' then ['\\', 'r']
  else if c = '\t' then ['\\', 't']
  else if 0x20 ≤ c.toNat ∧ c.toNat ≤ 0x7e then [c]
  else if c.toNat < 0x10000 then uEscape c.toNat
  else uEscape (0xd800 + (c.toNat - 0x10000) / 0x400) ++
    uEscape (0xdc00 + (c.toNat - 0x10000) % 0x400)

/-- Escape a whole string for a JSON string literal. -/
def jsonEscape (s : String) : List Char :=
  (s.data.map jsonEscapeChar).flatten

/-- A JSON string literal: quote, escaped content, quote. -/
def jsonStrLit (s : String) : List Char :=
  '"' :: jsonEscape s ++ ['"']

/-- Newline plus the 2-space-per-level indentation the json encoder emits
at indent=2. -/
def nlIndent (level : Nat) : List Char :=
  '\n' :: List.replicate (2 * level) ' '

/-- One key/value entry of an object, with the ": " key separator the
encoder uses when an indent is given. -/
def jsonEntry (kv : String × String) : List Char :=
  jsonStrLit kv.1 ++ ':' :: ' ' :: jsonStrLit kv.2

/-- The json iterencode of a flat string-valued dict at indent=2: first
entry after the newline indent, comma-newline-indent between entries,
closing brace back at the enclosing level. -/
def dumpObj (level : Nat) (kvs : List (String × String)) : List Char :=
  match kvs with
  | [] => ['\x7b', '\x7d']
  | kv :: rest =>
    '\x7b' :: (nlIndent (level + 1) ++ jsonEntry kv ++
      (rest.map (fun kv2 => ',' :: (nlIndent (level + 1) ++ jsonEntry kv2))).flatten ++
      nlIndent level ++ ['\x7d'])

/-- The json iterencode of the top-level list of dicts at indent=2. -/
def dumpArr (objs : List (List (String × String))) : List Char :=
  match objs with
  | [] => ['[', ']']
  | o :: rest =>
    '[' :: (nlIndent 1 ++ dumpObj 1 o ++
      (rest.map (fun o2 => ',' :: (nlIndent 1 ++ dumpObj 1 o2))).flatten ++
      nlIndent 0 ++ [']'])

/-- The key/value list of one record, in the insertion order of the dict
literal in `main`. -/
def recordKVs (r : ExportRecord) : List (String × String) :=
  [("host", r.host), ("metric", r.metric), ("value", r.value),
   ("units", r.units), ("timestamp", r.timestamp)]

/-- The JSON document written by `json.dump(filtered_metrics, f, indent=2)`. -/
def jsonRender (rs : List ExportRecord) : String :=
  String.mk (dumpArr (rs.map recordKVs))

/-! ## JSON deserialization (modelled from the spec: the repository has no
reader, the spec only guarantees that deserializing the document
reconstructs the records) -/

/-- Hex digit value, lowercase as emitted. -/
def parseHexDigit (c : Char) : Option Nat :=
  if '0' ≤ c ∧ c ≤ '9' then some (c.toNat - 48)
  else if 'a' ≤ c ∧ c ≤ 'f' then some (c.toNat - 87)
  else none

/-- Four hex digits and the remaining input. -/
def parseHex4 : List Char → Option (Nat × List Char)
  | a :: b :: c :: d :: rest =>
    match parseHexDigit a, parseHexDigit b, parseHexDigit c, parseHexDigit d with
    | some x, some y, some z, some w => some (x * 4096 + y * 256 + z * 16 + w, rest)
    | _, _, _, _ => none
  | _ => none

/-- Modelled from the spec: JSON string-body parser for the emitted
documents, consuming up to and including the closing quote, decoding the
escapes the encoder produces (including surrogate pairs).  Fuel bounds
the recursion; one unit per decoded character suffices. -/
def parseJStrAux : Nat → List Char → Option (List Char × List Char)
  | 0, _ => none
  | _ + 1, [] => none
  | fuel + 1, c :: rest =>
    if c = '"' then some ([], rest)
    else if c = '\\' then
      match rest with
      | [] => none
      | e :: rest2 =>
        if e = '"' then (parseJStrAux fuel rest2).map (fun p => ('"' :: p.1, p.2))
        else if e = '\\' then (parseJStrAux fuel rest2).map (fun p => ('\\' :: p.1, p.2))
        else if e = 'b' then (parseJStrAux fuel rest2).map (fun p => ('\x08' :: p.1, p.2))
        else if e = 'f' then (parseJStrAux fuel rest2).map (fun p => ('\x0c' :: p.1, p.2))
        else if e = 'n' then (parseJStrAux fuel rest2).map (fun p => ('\n' :: p.1, p.2))
        else if e = 'r' then (parseJStrAux fuel rest2).map (fun p => ('\r' :: p.1, p.2))
        else if e = 't' then (parseJStrAux fuel rest2).map (fun p => ('\t' :: p.1, p.2))
        else if e = 'u' then
          match parseHex4 rest2 with
          | none => none
          | some (n, rest3) =>
            if 0xd800 ≤ n ∧ n < 0xdc00 then
              match rest3 with
              | '\\' :: 'u' :: rest4 =>
                match parseHex4 rest4 with
                | none => none
                | some (m, rest5) =>
                  if 0xdc00 ≤ m ∧ m < 0xe000 then
                    (parseJStrAux fuel rest5).map (fun p =>
                      (Char.ofNat (0x10000 + (n - 0xd800) * 0x400 + (m - 0xdc00)) :: p.1, p.2))
                  else none
              | _ => none
            else if 0xdc00 ≤ n ∧ n < 0xe000 then none
            else (parseJStrAux fuel rest3).map (fun p => (Char.ofNat n :: p.1, p.2))
        else none
    else (parseJStrAux fuel rest).map (fun p => (c :: p.1, p.2))

/-- Expect a literal prefix, returning the remainder. -/
def stripPre : List Char → List Char → Option (List Char)
  | [], l => some l
  | _ :: _, [] => none
  | p :: ps, c :: cs => if p = c then stripPre ps cs else none

/-- Modelled from the spec: strict parser for one object of the emitted
JSON document, keys in the fixed order at 2-space indentation. -/
def parseJObj (l : List Char) : Option (ExportRecord × List Char) :=
  match stripPre "  \x7b\n    \"host\": \"".data l with
  | none => none
  | some l1 =>
    match parseJStrAux l1.length l1 with
    | none => none
    | some (h, l2) =>
      match stripPre ",\n    \"metric\": \"".data l2 with
      | none => none
      | some l3 =>
        match parseJStrAux l3.length l3 with
        | none => none
        | some (m, l4) =>
          match stripPre ",\n    \"value\": \"".data l4 with
          | none => none
          | some l5 =>
            match parseJStrAux l5.length l5 with
            | none => none
            | some (v, l6) =>
              match stripPre ",\n    \"units\": \"".data l6 with
              | none => none
              | some l7 =>
                match parseJStrAux l7.length l7 with
                | none => none
                | some (u, l8) =>
                  match stripPre ",\n    \"timestamp\": \"".data l8 with
                  | none => none
                  | some l9 =>
                    match parseJStrAux l9.length l9 with
                    | none => none
                    | some (t, l10) =>
                      match stripPre "\n  \x7d".data l10 with
                      | none => none
                      | some l11 =>
                        some (⟨String.mk h, String.mk m, String.mk v,
                          String.mk u, String.mk t⟩, l11)

/-- Modelled from the spec: the objects of the array, separated by
",\n" and terminated by "\n]". -/
def parseJObjsAux : Nat → List Char → Option (List ExportRecord × List Char)
  | 0, _ => none
  | fuel + 1, l =>
    match parseJObj l with
    | none => none
    | some (r, l1) =>
      match stripPre ",\n".data l1 with
      | some l2 =>
        match parseJObjsAux fuel l2 with
        | none => none
        | some (rs, l3) => some (r :: rs, l3)
      | none =>
        match stripPre "\n]".data l1 with
        | some l2 => some ([r], l2)
        | none => none

/-- Modelled from the spec: deserializer of the emitted JSON snapshot
document back into the record sequence. -/
def jsonParse (s : String) : Option (List ExportRecord) :=
  if s.data = "[]".data then some []
  else
    match stripPre "[\n".data s.data with
    | none => none
    | some l1 =>
      match parseJObjsAux l1.length l1 with
      | some (rs, []) => some rs
      | _ => none

/-! ## CSV serialization: embedding of `csv.DictWriter` (excel dialect,
QUOTE_MINIMAL, doublequote, CRLF line terminator) -/

/-- Whether the writer quotes a field: it contains the delimiter, the
quote character, or a line-terminator character. -/
def csvNeedsQuote (s : String) : Bool :=
  s.data.any (fun c => c = ',' || c = '"' || c = '\r' || c = '\n')

/-- Double every quote character, the doublequote=True convention. -/
def csvEscapeQuotes : List Char → List Char
  | [] => []
  | c :: cs => (if c = '"' then ['"', '"'] else [c]) ++ csvEscapeQuotes cs

/-- One field as written with QUOTE_MINIMAL. -/
def csvField (s : String) : List Char :=
  if csvNeedsQuote s then '"' :: csvEscapeQuotes s.data ++ ['"'] else s.data

/-- One row of five fields: comma-joined, CRLF-terminated. -/
def csvRow (a b c d e : String) : List Char :=
  csvField a ++ ',' :: csvField b ++ ',' :: csvField c ++ ',' :: csvField d ++
    ',' :: csvField e ++ ['\r', '\n']

/-- The CSV document written by the DictWriter: `writeheader` writes the
fieldnames row, then one row per record in order. -/
def csvRender (rs : List ExportRecord) : String :=
  String.mk (csvRow "host" "metric" "value" "units" "timestamp" ++
    (rs.map (fun r => csvRow r.host r.metric r.value r.units r.timestamp)).flatten)

/-! ## CSV deserialization (modelled from the spec) -/

/-- Modelled from the spec: quoted-field body parser, consuming through
the closing quote and decoding doubled quotes. -/
def parseQuoted : Nat → List Char → Option (List Char × List Char)
  | 0, _ => none
  | _ + 1, [] => none
  | fuel + 1, c :: rest =>
    if c = '"' then
      match rest with
      | r2 :: rest2 =>
        if r2 = '"' then (parseQuoted fuel rest2).map (fun p => ('"' :: p.1, p.2))
        else some ([], rest)
      | [] => some ([], rest)
    else (parseQuoted fuel rest).map (fun p => (c :: p.1, p.2))

/-- Modelled from the spec: unquoted field, read up to a comma or CR. -/
def parseUnquoted : List Char → List Char × List Char
  | [] => ([], [])
  | c :: rest =>
    if c = ',' ∨ c = '\r' then ([], c :: rest)
    else
      let p := parseUnquoted rest
      (c :: p.1, p.2)

/-- Modelled from the spec: one field, quoted exactly when it starts with
the quote character. -/
def parseCsvField (l : List Char) : Option (List Char × List Char) :=
  match l with
  | [] => some ([], [])
  | c :: rest =>
    if c = '"' then parseQuoted rest.length rest
    else some (parseUnquoted (c :: rest))

/-- Modelled from the spec: one CRLF-terminated data row of five fields. -/
def parseCsvRow (l : List Char) : Option (ExportRecord × List Char) :=
  match parseCsvField l with
  | none => none
  | some (h, l1) =>
    match stripPre [','] l1 with
    | none => none
    | some l2 =>
      match parseCsvField l2 with
      | none => none
      | some (m, l3) =>
        match stripPre [','] l3 with
        | none => none
        | some l4 =>
          match parseCsvField l4 with
          | none => none
          | some (v, l5) =>
            match stripPre [','] l5 with
            | none => none
            | some l6 =>
              match parseCsvField l6 with
              | none => none
              | some (u, l7) =>
                match stripPre [','] l7 with
                | none => none
                | some l8 =>
                  match parseCsvField l8 with
                  | none => none
                  | some (t, l9) =>
                    match stripPre ['\r', '\n'] l9 with
                    | none => none
                    | some l10 =>
                      some (⟨String.mk h, String.mk m, String.mk v,
                        String.mk u, String.mk t⟩, l10)

/-- Modelled from the spec: all data rows until the input is exhausted. -/
def parseCsvRowsAux : Nat → List Char → Option (List ExportRecord)
  | 0, l => if l.isEmpty then some [] else none
  | fuel + 1, l =>
    if l.isEmpty then some []
    else
      match parseCsvRow l with
      | none => none
      | some (r, l2) =>
        match parseCsvRowsAux fuel l2 with
        | none => none
        | some rs => some (r :: rs)

/-- Modelled from the spec: deserializer of the emitted CSV document back
into the record sequence. -/
def csvParse (s : String) : Option (List ExportRecord) :=
  match stripPre "host,metric,value,units,timestamp\r\n".data s.data with
  | none => none
  | some l => parseCsvRowsAux l.length l

/-! ## Spec-shape documents (each follows the words of the spec, to be
compared with the serializer embeddings) -/

/-- The spec-worded object shape: keys in the fixed order host, metric,
value, units, timestamp, 2-space indentation, string values escaped. -/
def specObj (r : ExportRecord) : List Char :=
  "  \x7b\n    \"host\": \"".data ++ jsonEscape r.host ++
    "\",\n    \"metric\": \"".data ++ jsonEscape r.metric ++
    "\",\n    \"value\": \"".data ++ jsonEscape r.value ++
    "\",\n    \"units\": \"".data ++ jsonEscape r.units ++
    "\",\n    \"timestamp\": \"".data ++ jsonEscape r.timestamp ++
    "\"\n  \x7d".data

/-- The spec-worded structured document: an array of the objects in input
order, pretty-printed. -/
def jsonSpecDoc (rs : List ExportRecord) : String :=
  match rs with
  | [] => "[]"
  | _ => String.mk ("[\n".data ++ List.intercalate ",\n".data (rs.map specObj) ++ "\n]".data)

/-- The spec-worded tabular document: the literal header row, then one
row per record in input order. -/
def csvSpecDoc (rs : List ExportRecord) : String :=
  String.mk ("host,metric,value,units,timestamp\r\n".data ++
    (rs.map (fun r => csvRow r.host r.metric r.value r.units r.timestamp)).flatten)

/-- The full run on given collaborator responses: the snapshot plus the
three documents `main` writes. -/
structure RunOut where
  records : List ExportRecord
  jsonDoc : String
  csvDoc : String
  readme : String

/-- The data-path of `main` (API calls and git publishing are the injected
collaborators and the ambient world): one shared timestamp, the filtered
metrics, the README, the JSON document and the CSV document. -/
def main_run (w : World) (hosts : List Host)
    (zabbix_get_items : String → List Item) : RunOut :=
  let timestamp := runTimestamp w.now
  let filtered_metrics := collect_metrics timestamp hosts zabbix_get_items
  { records := filtered_metrics
    jsonDoc := jsonRender filtered_metrics
    csvDoc := csvRender filtered_metrics
    readme := generate_readme w filtered_metrics.length }

/-! ## Round-trip lemmas: JSON strings -/

/-- Stripping a literal prefix from itself plus a remainder. -/
theorem stripPre_append (p l : List Char) : stripPre p (p ++ l) = some l := by
  induction p with
  | nil => rfl
  | cons c cs ih => simp [stripPre, ih]

/-- Every character escapes to at least one character. -/
theorem jsonEscapeChar_length_pos (c : Char) : 1 ≤ (jsonEscapeChar c).length := by
  unfold jsonEscapeChar uEscape
  repeat' split
  all_goals simp [hex4]

/-- The escaped form is at least as long as the source. -/
theorem length_le_jsonEscape_flatten (l : List Char) :
    l.length ≤ ((l.map jsonEscapeChar).flatten).length := by
  induction l with
  | nil => simp
  | cons c cs ih =>
    simp only [List.map_cons, List.flatten_cons, List.length_cons, List.length_append]
    have := jsonEscapeChar_length_pos c
    omega

/-- Decoding a single emitted hex digit. -/
theorem parseHexDigit_hexDigitChar : ∀ d, d < 16 → parseHexDigit (hexDigitChar d) = some d := by
  decide

/-- Decoding four emitted hex digits. -/
theorem parseHex4_hex4 (n : Nat) (hn : n < 65536) (tail : List Char) :
    parseHex4 (hex4 n ++ tail) = some (n, tail) := by
  have h1 := parseHexDigit_hexDigitChar (n / 4096 % 16) (by omega)
  have h2 := parseHexDigit_hexDigitChar (n / 256 % 16) (by omega)
  have h3 := parseHexDigit_hexDigitChar (n / 16 % 16) (by omega)
  have h4 := parseHexDigit_hexDigitChar (n % 16) (by omega)
  simp only [hex4, List.cons_append, List.nil_append, parseHex4, h1, h2, h3, h4]
  congr 1
  simp only [Prod.mk.injEq, and_true]
  omega

/-- The valid-scalar range of a character. -/
theorem char_toNat_valid (c : Char) :
    c.toNat < 0xd800 ∨ (0xdfff < c.toNat ∧ c.toNat < 0x110000) := by
  have h := c.valid
  unfold UInt32.isValidChar Nat.isValidChar at h
  have : c.toNat = c.val.toNat := rfl
  omega

/-- Parser behavior on one emitted BMP \uXXXX escape. -/
theorem parseJStrAux_u (fuel n : Nat) (tail : List Char) (hn : n < 65536)
    (hs1 : ¬(0xd800 ≤ n ∧ n < 0xdc00)) (hs2 : ¬(0xdc00 ≤ n ∧ n < 0xe000)) :
    parseJStrAux (fuel + 1) ('\\' :: 'u' :: (hex4 n ++ tail)) =
      (parseJStrAux fuel tail).map (fun p => (Char.ofNat n :: p.1, p.2)) := by
  simp [parseJStrAux, parseHex4_hex4 n hn tail, hs1, hs2]

/-- Parser behavior on one emitted surrogate-pair escape. -/
theorem parseJStrAux_surr (fuel hi lo : Nat) (tail : List Char)
    (hhi1 : 0xd800 ≤ hi) (hhi2 : hi < 0xdc00) (hlo1 : 0xdc00 ≤ lo) (hlo2 : lo < 0xe000) :
    parseJStrAux (fuel + 1) ('\\' :: 'u' :: (hex4 hi ++ ('\\' :: 'u' :: (hex4 lo ++ tail)))) =
      (parseJStrAux fuel tail).map (fun p =>
        (Char.ofNat (0x10000 + (hi - 0xd800) * 0x400 + (lo - 0xdc00)) :: p.1, p.2)) := by
  have hx1 := parseHex4_hex4 hi (by omega) ('\\' :: 'u' :: (hex4 lo ++ tail))
  have hx2 := parseHex4_hex4 lo (by omega) tail
  simp [parseJStrAux, hx1, hx2, hhi1, hhi2, hlo1, hlo2]

/-- Parsing one emitted escape consumes it and decodes the character. -/
theorem parseJStrAux_escapeChar (c : Char) (fuel : Nat) (tail : List Char) :
    parseJStrAux (fuel + 1) (jsonEscapeChar c ++ tail) =
      (parseJStrAux fuel tail).map (fun p => (c :: p.1, p.2)) := by
  have hval := char_toNat_valid c
  by_cases h1 : c = '"'
  · subst h1; simp [jsonEscapeChar, parseJStrAux]
  by_cases h2 : c = '\\'
  · subst h2; simp [jsonEscapeChar, parseJStrAux]
  by_cases h3 : c = '\x08'
  · subst h3; simp [jsonEscapeChar, parseJStrAux]
  by_cases h4 : c = '\x0c'
  · subst h4; simp [jsonEscapeChar, parseJStrAux]
  by_cases h5 : c = '\n'
  · subst h5; simp [jsonEscapeChar, parseJStrAux]
  by_cases h6 : c = '\r'
  · subst h6; simp [jsonEscapeChar, parseJStrAux]
  by_cases h7 : c = '\t'
  · subst h7; simp [jsonEscapeChar, parseJStrAux]
  by_cases h8 : 0x20 ≤ c.toNat ∧ c.toNat ≤ 0x7e
  · rw [show jsonEscapeChar c = [c] from by
      simp [jsonEscapeChar, h1, h2, h3, h4, h5, h6, h7, h8]]
    simp only [List.cons_append, List.nil_append, parseJStrAux]
    rw [if_neg h1, if_neg h2]
    rfl
  by_cases h9 : c.toNat < 0x10000
  · have hns1 : ¬(0xd800 ≤ c.toNat ∧ c.toNat < 0xdc00) := by omega
    have hns2 : ¬(0xdc00 ≤ c.toNat ∧ c.toNat < 0xe000) := by omega
    rw [show jsonEscapeChar c ++ tail = '\\' :: 'u' :: (hex4 c.toNat ++ tail) from by
      simp [jsonEscapeChar, h1, h2, h3, h4, h5, h6, h7, h8, h9, uEscape]]
    rw [parseJStrAux_u fuel c.toNat tail h9 hns1 hns2, Char.ofNat_toNat]
  · have hcnat : c.toNat < 0x110000 := by omega
    rw [show jsonEscapeChar c ++ tail =
        '\\' :: 'u' :: (hex4 (0xd800 + (c.toNat - 0x10000) / 0x400) ++
          ('\\' :: 'u' :: (hex4 (0xdc00 + (c.toNat - 0x10000) % 0x400) ++ tail))) from by
      simp [jsonEscapeChar, h1, h2, h3, h4, h5, h6, h7, h8, h9, uEscape, List.append_assoc]]
    rw [parseJStrAux_surr fuel (0xd800 + (c.toNat - 0x10000) / 0x400)
      (0xdc00 + (c.toNat - 0x10000) % 0x400) tail (by omega) (by omega) (by omega) (by omega)]
    have harg : 0x10000 + (0xd800 + (c.toNat - 0x10000) / 0x400 - 0xd800) * 0x400 +
        (0xdc00 + (c.toNat - 0x10000) % 0x400 - 0xdc00) = c.toNat := by omega
    rw [harg, Char.ofNat_toNat]

/-- Parsing the full emitted escaped body plus closing quote. -/
theorem parseJStrAux_escape (l : List Char) :
    ∀ (fuel : Nat) (tail : List Char), l.length < fuel →
      parseJStrAux fuel ((l.map jsonEscapeChar).flatten ++ '"' :: tail) = some (l, tail) := by
  induction l with
  | nil =>
    intro fuel tail hf
    match fuel, hf with
    | fuel + 1, _ => rfl
  | cons c cs ih =>
    intro fuel tail hf
    match fuel, hf with
    | fuel + 1, hf =>
      have step := parseJStrAux_escapeChar c fuel
        ((cs.map jsonEscapeChar).flatten ++ '"' :: tail)
      simp only [List.map_cons, List.flatten_cons, List.length_cons] at hf ⊢
      rw [List.append_assoc, step, ih fuel tail (by omega)]
      rfl

/-- Parsing the emitted string literal body with the fuel the object
parser supplies. -/
theorem parseJStrAux_emitted (s : String) (tail : List Char) :
    parseJStrAux (jsonEscape s ++ '"' :: tail).length (jsonEscape s ++ '"' :: tail) =
      some (s.data, tail) := by
  unfold jsonEscape
  apply parseJStrAux_escape
  have h := length_le_jsonEscape_flatten s.data
  simp only [List.length_append, List.length_cons]
  omega

/-- The object parser inverts the spec-shape object. -/
theorem parseJObj_specObj (r : ExportRecord) (tail : List Char) :
    parseJObj (specObj r ++ tail) = some (r, tail) := by
  have q1 : "\",\n    \"metric\": \"".data = '"' :: ",\n    \"metric\": \"".data := rfl
  have q2 : "\",\n    \"value\": \"".data = '"' :: ",\n    \"value\": \"".data := rfl
  have q3 : "\",\n    \"units\": \"".data = '"' :: ",\n    \"units\": \"".data := rfl
  have q4 : "\",\n    \"timestamp\": \"".data = '"' :: ",\n    \"timestamp\": \"".data := rfl
  have q5 : "\"\n  \x7d".data = '"' :: "\n  \x7d".data := rfl
  have e1 : specObj r ++ tail =
      "  \x7b\n    \"host\": \"".data ++ (jsonEscape r.host ++ '"' ::
        (",\n    \"metric\": \"".data ++ (jsonEscape r.metric ++ '"' ::
          (",\n    \"value\": \"".data ++ (jsonEscape r.value ++ '"' ::
            (",\n    \"units\": \"".data ++ (jsonEscape r.units ++ '"' ::
              (",\n    \"timestamp\": \"".data ++ (jsonEscape r.timestamp ++ '"' ::
                ("\n  \x7d".data ++ tail)))))))))) := by
    simp only [specObj, q1, q2, q3, q4, q5, List.append_assoc, List.cons_append]
  rw [e1]
  unfold parseJObj
  rw [stripPre_append]
  dsimp only
  rw [parseJStrAux_emitted]
  dsimp only
  rw [stripPre_append]
  dsimp only
  rw [parseJStrAux_emitted]
  dsimp only
  rw [stripPre_append]
  dsimp only
  rw [parseJStrAux_emitted]
  dsimp only
  rw [stripPre_append]
  dsimp only
  rw [parseJStrAux_emitted]
  dsimp only
  rw [stripPre_append]
  dsimp only
  rw [parseJStrAux_emitted]
  dsimp only
  rw [stripPre_append]

/-- Intercalation of a single chunk. -/
theorem intercalate_one (sep a : List Char) : List.intercalate sep [a] = a := by
  simp [List.intercalate]

/-- Intercalation unfolding for two or more chunks. -/
theorem intercalate_cons_two (sep a b : List Char) (l : List (List Char)) :
    List.intercalate sep (a :: b :: l) = a ++ (sep ++ List.intercalate sep (b :: l)) := by
  simp [List.intercalate, List.append_assoc]

/-- Intercalation as head plus separated tail chunks. -/
theorem intercalate_head (sep : List Char) :
    ∀ (l : List (List Char)) (a : List Char),
      List.intercalate sep (a :: l) = a ++ (l.map (fun b => sep ++ b)).flatten := by
  intro l
  induction l with
  | nil => intro a; simp [intercalate_one]
  | cons b l2 ih =>
    intro a
    rw [intercalate_cons_two, List.map_cons, List.flatten_cons, ih b]
    simp [List.append_assoc]

/-- The spec-shape object is the two-space array indent plus the encoder
output of the record dict. -/
theorem specObj_eq_dumpObj (r : ExportRecord) :
    specObj r = ' ' :: ' ' :: dumpObj 1 (recordKVs r) := by
  have k1 : jsonEscape "host" = "host".data := rfl
  have k2 : jsonEscape "metric" = "metric".data := rfl
  have k3 : jsonEscape "value" = "value".data := rfl
  have k4 : jsonEscape "units" = "units".data := rfl
  have k5 : jsonEscape "timestamp" = "timestamp".data := rfl
  simp only [specObj, dumpObj, recordKVs, jsonEntry, jsonStrLit, nlIndent,
    k1, k2, k3, k4, k5, List.map_cons, List.map_nil, List.flatten_cons, List.flatten_nil,
    List.append_nil, List.cons_append, List.append_assoc]
  simp [List.replicate]

/-- The comma-separated array body matches the separated spec objects. -/
theorem dumpArr_body_eq (l : List ExportRecord) :
    ((l.map recordKVs).map (fun o => ',' :: (nlIndent 1 ++ dumpObj 1 o))).flatten =
      ((l.map specObj).map (fun b => ",\n".data ++ b)).flatten := by
  rw [List.map_map, List.map_map]
  apply congrArg List.flatten
  apply List.map_congr_left
  intro r _
  simp [Function.comp, specObj_eq_dumpObj, nlIndent, List.replicate]

/-- The encoder output of a nonempty snapshot equals the spec shape. -/
theorem dumpArr_eq_spec (r : ExportRecord) (rest : List ExportRecord) :
    dumpArr ((r :: rest).map recordKVs) =
      "[\n".data ++ (List.intercalate ",\n".data ((r :: rest).map specObj) ++ "\n]".data) := by
  rw [show List.map specObj (r :: rest) = specObj r :: rest.map specObj from rfl,
    intercalate_head (",\n".data) (rest.map specObj) (specObj r),
    show List.map recordKVs (r :: rest) = recordKVs r :: rest.map recordKVs from rfl]
  unfold dumpArr
  dsimp only
  rw [dumpArr_body_eq rest, specObj_eq_dumpObj r]
  simp [nlIndent, List.replicate, List.append_assoc]

/-- The JSON document of the source equals the spec-shape document. -/
theorem jsonRender_eq_specDoc (rs : List ExportRecord) :
    jsonRender rs = jsonSpecDoc rs := by
  cases rs with
  | nil => rfl
  | cons r rest =>
    unfold jsonRender jsonSpecDoc
    rw [dumpArr_eq_spec]
    simp [List.append_assoc]

/-- A spec-shape object is nonempty. -/
theorem specObj_length_pos (r : ExportRecord) : 1 ≤ (specObj r).length := by
  unfold specObj
  rw [List.length_append]
  have h : ("\"\n  \x7d".data).length = 5 := rfl
  omega

/-- Lower bound on the intercalated body length. -/
theorem intercalate_specObj_length :
    ∀ (l : List ExportRecord) (r : ExportRecord),
      l.length + 1 ≤ (List.intercalate ",\n".data ((r :: l).map specObj)).length := by
  intro l
  induction l with
  | nil =>
    intro r
    rw [show List.map specObj [r] = [specObj r] from rfl, intercalate_one]
    simpa using specObj_length_pos r
  | cons r2 rest2 ih =>
    intro r
    have h2 := ih r2
    rw [show List.map specObj (r :: r2 :: rest2) =
        specObj r :: specObj r2 :: List.map specObj rest2 from rfl, intercalate_cons_two]
    rw [show List.map specObj (r2 :: rest2) =
        specObj r2 :: List.map specObj rest2 from rfl] at h2
    have h1 := specObj_length_pos r
    have h3 : (",\n".data).length = 2 := rfl
    simp only [List.length_append, List.length_cons] at h2 ⊢
    omega

/-- The objects parser inverts the intercalated body plus terminator. -/
theorem parseJObjsAux_spec :
    ∀ (rest : List ExportRecord) (r : ExportRecord) (fuel : Nat), rest.length < fuel →
      parseJObjsAux fuel
        (List.intercalate ",\n".data ((r :: rest).map specObj) ++ "\n]".data) =
        some (r :: rest, []) := by
  intro rest
  induction rest with
  | nil =>
    intro r fuel hf
    match fuel, hf with
    | fuel + 1, _ =>
      rw [show List.map specObj [r] = [specObj r] from rfl, intercalate_one]
      unfold parseJObjsAux
      rw [parseJObj_specObj]
      dsimp only
      rw [show stripPre ",\n".data "\n]".data = none from rfl]
      dsimp only
      rw [show stripPre "\n]".data "\n]".data = some [] from rfl]
  | cons r2 rest2 ih =>
    intro r fuel hf
    match fuel, hf with
    | fuel + 1, hf =>
      rw [show List.map specObj (r :: r2 :: rest2) =
          specObj r :: specObj r2 :: List.map specObj rest2 from rfl,
        intercalate_cons_two, List.append_assoc, List.append_assoc]
      unfold parseJObjsAux
      rw [parseJObj_specObj]
      dsimp only
      rw [stripPre_append]
      dsimp only
      have hlt : rest2.length < fuel := by
        simp only [List.length_cons] at hf
        omega
      have hih := ih r2 fuel hlt
      rw [show List.map specObj (r2 :: rest2) =
          specObj r2 :: List.map specObj rest2 from rfl,
        show (",\n".data : List Char) = [',', '\n'] from rfl,
        show ("\n]".data : List Char) = ['\n', ']'] from rfl] at hih
      rw [hih]

/-- Deserializing the spec-shape JSON document yields the records. -/
theorem jsonParse_specDoc (rs : List ExportRecord) :
    jsonParse (jsonSpecDoc rs) = some rs := by
  cases rs with
  | nil => rfl
  | cons r rest =>
    unfold jsonSpecDoc jsonParse
    dsimp only
    rw [if_neg ?hne]
    case hne =>
      intro h
      have hlen := congrArg List.length h
      have h1 : ("[\n".data).length = 2 := rfl
      have h2 : ("\n]".data).length = 2 := rfl
      have h3 : ("[]".data).length = 2 := rfl
      simp only [List.length_append, h1, h2, h3] at hlen
      omega
    rw [List.append_assoc, stripPre_append]
    dsimp only
    rw [show ([',', '\n'] : List Char) = ",\n".data from rfl,
      show (['\n', ']'] : List Char) = "\n]".data from rfl]
    have hlt : rest.length <
        (List.intercalate ",\n".data ((r :: rest).map specObj) ++ "\n]".data).length := by
      have h1 := intercalate_specObj_length rest r
      simp only [List.length_append] at h1 ⊢
      have h2 : (['\n', ']'] : List Char).length = 2 := rfl
      have h3 : (("\n]".data : List Char)).length = 2 := rfl
      omega
    rw [parseJObjsAux_spec rest r _ hlt]

/-! ## Round-trip lemmas: CSV -/

/-- The header row evaluates to the literal header line. -/
theorem csvRender_eq_specDoc (rs : List ExportRecord) :
    csvRender rs = csvSpecDoc rs := by
  unfold csvRender csvSpecDoc
  rw [show csvRow "host" "metric" "value" "units" "timestamp" =
      "host,metric,value,units,timestamp\r\n".data from rfl]

/-- Stripping a single expected character. -/
theorem stripPre_cons (c : Char) (l : List Char) : stripPre [c] (c :: l) = some l := by
  simp [stripPre]

/-- An unquoted clean field parses up to the delimiter. -/
theorem parseUnquoted_clean (l : List Char) :
    ∀ (d : Char) (tail : List Char),
      (∀ c ∈ l, ¬(c = ',' ∨ c = '\r')) → (d = ',' ∨ d = '\r') →
      parseUnquoted (l ++ d :: tail) = (l, d :: tail) := by
  induction l with
  | nil =>
    intro d tail _ hd
    simp only [List.nil_append, parseUnquoted, if_pos hd]
  | cons c cs ih =>
    intro d tail hcl hd
    have hc : ¬(c = ',' ∨ c = '\r') := hcl c (by simp)
    simp only [List.cons_append, parseUnquoted, if_neg hc]
    rw [show cs.append (d :: tail) = cs ++ d :: tail from rfl,
      ih d tail (fun x hx => hcl x (by simp [hx])) hd]

/-- Doubling quotes never shortens a field. -/
theorem length_le_csvEscapeQuotes (l : List Char) : l.length ≤ (csvEscapeQuotes l).length := by
  induction l with
  | nil => simp [csvEscapeQuotes]
  | cons c cs ih =>
    by_cases hc : c = '"' <;> simp only [csvEscapeQuotes, if_pos, if_neg, hc, List.length_append,
      List.length_cons] <;> simp <;> omega

/-- A quoted field body parses back through the closing quote. -/
theorem parseQuoted_escape (l : List Char) :
    ∀ (fuel : Nat) (d : Char) (tail : List Char), l.length < fuel → d ≠ '"' →
      parseQuoted fuel (csvEscapeQuotes l ++ '"' :: d :: tail) = some (l, d :: tail) := by
  induction l with
  | nil =>
    intro fuel d tail hf hd
    match fuel, hf with
    | fuel + 1, _ =>
      simp [csvEscapeQuotes, parseQuoted, hd]
  | cons c cs ih =>
    intro fuel d tail hf hd
    match fuel, hf with
    | fuel + 1, hf =>
      have hlt : cs.length < fuel := by
        simp only [List.length_cons] at hf
        omega
      by_cases hc : c = '"'
      · subst hc
        rw [show csvEscapeQuotes ('"' :: cs) ++ '"' :: d :: tail =
            '"' :: '"' :: (csvEscapeQuotes cs ++ '"' :: d :: tail) from by
          simp [csvEscapeQuotes]]
        simp only [parseQuoted, if_pos rfl]
        rw [ih fuel d tail hlt hd]
        rfl
      · rw [show csvEscapeQuotes (c :: cs) ++ '"' :: d :: tail =
            c :: (csvEscapeQuotes cs ++ '"' :: d :: tail) from by
          simp [csvEscapeQuotes, hc]]
        simp only [parseQuoted, if_neg hc]
        rw [ih fuel d tail hlt hd]
        rfl

/-- Every emitted field parses back up to the following delimiter. -/
theorem parseCsvField_emitted (s : String) (d : Char) (tail : List Char)
    (hd : d = ',' ∨ d = '\r') :
    parseCsvField (csvField s ++ d :: tail) = some (s.data, d :: tail) := by
  have hdq : d ≠ '"' := by rcases hd with h | h <;> subst h <;> decide
  cases hq : csvNeedsQuote s with
  | true =>
    rw [show csvField s ++ d :: tail =
        '"' :: (csvEscapeQuotes s.data ++ '"' :: d :: tail) from by
      simp [csvField, hq, List.append_assoc]]
    simp only [parseCsvField, if_pos rfl]
    apply parseQuoted_escape s.data _ d tail ?_ hdq
    have h1 := length_le_csvEscapeQuotes s.data
    simp only [List.length_append, List.length_cons]
    omega
  | false =>
    have hclean : ∀ c ∈ s.data, ¬c = ',' ∧ ¬c = '"' ∧ ¬c = '\r' ∧ ¬c = '\n' := by
      intro c hc
      have h := List.any_eq_false.mp hq c hc
      simp only [Bool.or_eq_true, decide_eq_true_eq, not_or] at h
      tauto
    have hnq : ∀ c ∈ s.data, ¬(c = ',' ∨ c = '\r') := by
      intro c hc
      have h := hclean c hc
      tauto
    have hquote : ∀ c ∈ s.data, c ≠ '"' := by
      intro c hc
      exact (hclean c hc).2.1
    rw [show csvField s = s.data from by simp [csvField, hq]]
    cases hsd : s.data with
    | nil =>
      simp only [List.nil_append, parseCsvField, if_neg hdq, parseUnquoted, if_pos hd]
    | cons c cs =>
      have hc : c ≠ '"' := hquote c (by simp [hsd])
      simp only [List.cons_append, parseCsvField, if_neg hc]
      rw [show (c :: (cs ++ d :: tail)) = (c :: cs) ++ d :: tail from rfl]
      rw [parseUnquoted_clean (c :: cs) d tail (by rw [← hsd]; exact hnq) hd]

/-- One emitted row parses back into its record. -/
theorem parseCsvRow_emitted (a b c d e : String) (tail : List Char) :
    parseCsvRow (csvRow a b c d e ++ tail) = some (⟨a, b, c, d, e⟩, tail) := by
  rw [show csvRow a b c d e ++ tail =
      csvField a ++ ',' :: (csvField b ++ ',' :: (csvField c ++ ',' :: (csvField d ++
        ',' :: (csvField e ++ '\r' :: '\n' :: tail)))) from by
    simp [csvRow, List.append_assoc]]
  unfold parseCsvRow
  rw [parseCsvField_emitted a ',' _ (Or.inl rfl)]
  dsimp only
  rw [stripPre_cons]
  dsimp only
  rw [parseCsvField_emitted b ',' _ (Or.inl rfl)]
  dsimp only
  rw [stripPre_cons]
  dsimp only
  rw [parseCsvField_emitted c ',' _ (Or.inl rfl)]
  dsimp only
  rw [stripPre_cons]
  dsimp only
  rw [parseCsvField_emitted d ',' _ (Or.inl rfl)]
  dsimp only
  rw [stripPre_cons]
  dsimp only
  rw [parseCsvField_emitted e '\r' _ (Or.inr rfl)]
  dsimp only
  rw [show ('\r' :: '\n' :: tail) = ['\r', '\n'] ++ tail from rfl, stripPre_append]

/-- A row is never empty. -/
theorem csvRow_length_pos (a b c d e : String) : 2 ≤ (csvRow a b c d e).length := by
  simp only [csvRow, List.length_append, List.length_cons]
  omega

/-- The row block is at least as long as the record count. -/
theorem rows_flatten_length (rs : List ExportRecord) :
    rs.length ≤
      ((rs.map (fun r => csvRow r.host r.metric r.value r.units r.timestamp)).flatten).length := by
  induction rs with
  | nil => simp
  | cons r rest ih =>
    simp only [List.map_cons, List.flatten_cons, List.length_append, List.length_cons]
    have h := csvRow_length_pos r.host r.metric r.value r.units r.timestamp
    omega

/-- The rows parser inverts the emitted row block. -/
theorem parseCsvRowsAux_spec :
    ∀ (rs : List ExportRecord) (fuel : Nat), rs.length ≤ fuel →
      parseCsvRowsAux fuel
        ((rs.map (fun r => csvRow r.host r.metric r.value r.units r.timestamp)).flatten) =
        some rs := by
  intro rs
  induction rs with
  | nil =>
    intro fuel _
    cases fuel <;> rfl
  | cons r rest ih =>
    intro fuel hf
    match fuel, hf with
    | fuel + 1, hf =>
      simp only [List.map_cons, List.flatten_cons]
      unfold parseCsvRowsAux
      rw [if_neg ?hne]
      case hne =>
        intro h
        have h2 := List.append_eq_nil.mp (List.isEmpty_iff.mp h)
        have h3 := congrArg List.length h2.1
        have h4 := csvRow_length_pos r.host r.metric r.value r.units r.timestamp
        simp only [List.length_nil] at h3
        omega
      rw [parseCsvRow_emitted]
      dsimp only
      have hlt : rest.length ≤ fuel := by
        simp only [List.length_cons] at hf
        omega
      rw [ih fuel hlt]

/-- Deserializing the spec-shape CSV document yields the records. -/
theorem csvParse_specDoc (rs : List ExportRecord) :
    csvParse (csvSpecDoc rs) = some rs := by
  unfold csvParse csvSpecDoc
  have hdm : ∀ l : List Char, (String.mk l).data = l := fun _ => rfl
  rw [hdm, stripPre_append]
  dsimp only
  exact parseCsvRowsAux_spec rs _ (rows_flatten_length rs)

/-- C4: deserializing the emitted JSON document and the emitted CSV
document each reconstruct the original record sequence exactly, field for
field and in order, so the two deserialized sequences also agree with
each other. -/
theorem round_trip_documents (rs : List ExportRecord) :
    jsonParse (jsonRender rs) = some rs ∧
    csvParse (csvRender rs) = some rs ∧
    jsonParse (jsonRender rs) = csvParse (csvRender rs) := by
  refine ⟨?_, ?_, ?_⟩
  · rw [jsonRender_eq_specDoc]
    exact jsonParse_specDoc rs
  · rw [csvRender_eq_specDoc]
    exact csvParse_specDoc rs
  · rw [jsonRender_eq_specDoc, csvRender_eq_specDoc, jsonParse_specDoc, csvParse_specDoc]

/-- C6: the JSON document is exactly the spec-shape array (objects with
keys in the fixed order host, metric, value, units, timestamp, 2-space
indentation, input order) and the CSV document is exactly the literal
header row followed by one minimally-quoted row per record in input
order. -/
theorem documents_have_spec_shape (rs : List ExportRecord) :
    jsonRender rs = jsonSpecDoc rs ∧ csvRender rs = csvSpecDoc rs :=
  ⟨jsonRender_eq_specDoc rs, csvRender_eq_specDoc rs⟩

/-- C8: with zero hosts the snapshot is empty, the JSON document is
exactly "[]", the CSV document is the header row alone, and the README
reports a total metric count of 0. -/
theorem zero_hosts_empty_snapshot (w : World) (getItems : String → List Item) :
    (main_run w [] getItems).records = [] ∧
    (main_run w [] getItems).jsonDoc = "[]" ∧
    (main_run w [] getItems).csvDoc = "host,metric,value,units,timestamp\r\n" ∧
    ∃ pre post, (main_run w [] getItems).readme =
      pre ++ "Total Metrics Collected: 0" ++ post := by
  refine ⟨rfl, rfl, rfl, ?_⟩
  refine ⟨"# Zabbix Metrics Archive\n\n⚠️ **Note**: Sensitive fields like hostnames and system descriptions are redacted.\n\n## Dataset Info\n- Last Updated: "
      ++ readmeTime w.now ++ "\n- ",
    "\n- Update Frequency: Every 3 hours\n\n## Data Structure\n```json\n\x7b\n    \"host\": \"redacted\",\n    \"metric\": \"CPU Usage\",\n    \"value\": \"12.5\",\n    \"units\": \"%\",\n    \"timestamp\": \"2024-05-21T12:00:00\"\n\x7d\n```\n", ?_⟩
  show generate_readme w 0 = _
  unfold generate_readme
  rw [show toString (0 : Nat) = "0" from rfl]
  simp only [String.append_assoc]
  apply congrArg
  apply congrArg
  rfl
